import Mathlib

/-!
Shallow embedding of the uniflow-backend pricing and routing code.

The embedded source files:
* `src/core/PriceService.ts` — CoinMarketCap price fetching with a
  60 000 ms TTL cache (`getTokenPrices`, `getCachedPrice`, `clearCache`,
  `getCacheSize`);
* `src/api/routes.ts` — the `/v4/positions/:walletAddress` handler's
  input validation (address regex, chainId parse and allow-list);
* `UniswapV4Service.getPositions` — not present in the sources, modelled
  from the specification (section 4.4).

JavaScript `Map` objects are embedded as association lists with
insertion-order overwrite (`mapSet`) and first-match lookup (`mapGet`).
JavaScript numbers holding prices are embedded as `Rat`; epoch
milliseconds as `Int`. `String.prototype.toLowerCase` is embedded as the
ASCII case map `lcStr` (token addresses are ASCII hex strings).
-/

/-- ASCII lower-casing of one character, as `toLowerCase` acts on the
ASCII range (addresses are ASCII). -/
def lcChar : Char → Char
  | 'A' => 'a'
  | 'B' => 'b'
  | 'C' => 'c'
  | 'D' => 'd'
  | 'E' => 'e'
  | 'F' => 'f'
  | 'G' => 'g'
  | 'H' => 'h'
  | 'I' => 'i'
  | 'J' => 'j'
  | 'K' => 'k'
  | 'L' => 'l'
  | 'M' => 'm'
  | 'N' => 'n'
  | 'O' => 'o'
  | 'P' => 'p'
  | 'Q' => 'q'
  | 'R' => 'r'
  | 'S' => 's'
  | 'T' => 't'
  | 'U' => 'u'
  | 'V' => 'v'
  | 'W' => 'w'
  | 'X' => 'x'
  | 'Y' => 'y'
  | 'Z' => 'z'
  | c => c

/-- Embedding of `s.toLowerCase()` on ASCII strings. -/
def lcStr (s : String) : String := String.mk (s.data.map lcChar)

/-- Lookup in a JavaScript `Map` (first matching key). -/
def mapGet {α : Type} (m : List (String × α)) (k : String) : Option α :=
  match m with
  | [] => none
  | (k2, v) :: rest => if k2 = k then some v else mapGet rest k

/-- `Map.prototype.set`: overwrite in place when the key exists,
append otherwise. -/
def mapSet {α : Type} (m : List (String × α)) (k : String) (v : α) :
    List (String × α) :=
  match m with
  | [] => [(k, v)]
  | (k2, v2) :: rest =>
    if k2 = k then (k, v) :: rest else (k2, v2) :: mapSet rest k v

/-- Cached price fact (`PriceData` in `src/core/types`): address (the
lowercased cache key), symbol, USD price, and fetch time in epoch ms. -/
structure PriceData where
  address : String
  symbol : String
  priceUsd : Rat
  timestamp : Int
deriving DecidableEq, Repr

/-- State of a `PriceService` instance: the configured API key (empty
string when none) and the price cache. -/
structure PriceServiceState where
  apiKey : String
  priceCache : List (String × PriceData)
deriving DecidableEq, Repr

/-- `CACHE_TTL_MS = 60000` (one minute). -/
def CACHE_TTL_MS : Int := 60000

/-- `getCachedPrice(address)`: lowercase the key, return `null` when the
entry is absent or `Date.now() - cached.timestamp > CACHE_TTL_MS`. -/
def getCachedPrice (s : PriceServiceState) (now : Int) (address : String) :
    Option PriceData :=
  match mapGet s.priceCache (lcStr address) with
  | none => none
  | some cached =>
    if now - cached.timestamp > CACHE_TTL_MS then none else some cached

/-- One `quote.USD` object of the CoinMarketCap response. -/
structure UsdQuote where
  price : Rat
deriving DecidableEq, Repr

/-- One `quote` object; `USD` may be absent. -/
structure QuoteData where
  USD : Option UsdQuote
deriving DecidableEq, Repr

/-- One per-token record of the response body; `symbol` and `quote` may
be absent. -/
structure TokenData where
  symbol : Option String
  quote : Option QuoteData
deriving DecidableEq, Repr

/-- `response.data.data`: token records keyed by address. -/
abbrev CmcDataMap := List (String × TokenData)

/-- Outcome of the `axios.get` call to CoinMarketCap:
`reject` — the promise rejects (timeout, non-2xx, network error);
`resolve none` — the promise resolves but `response.data` or
`response.data.data` is absent (malformed payload);
`resolve (some data)` — the promise resolves with a data object. -/
inductive RemoteOutcome where
  | reject : RemoteOutcome
  | resolve : Option CmcDataMap → RemoteOutcome
deriving DecidableEq, Repr

/-- JavaScript `x || dflt` on an optional string (absent and `""` are
falsy). -/
def jsOr (o : Option String) (dflt : String) : String :=
  match o with
  | some s => if s = "" then dflt else s
  | none => dflt

/-- The guard chain `tokenData && tokenData.quote && tokenData.quote.USD`
followed by `tokenData.quote.USD.price`, for one address of the
response body. -/
def quoteOf (data : CmcDataMap) (a : String) : Option Rat :=
  match mapGet data a with
  | none => none
  | some td =>
    match td.quote with
    | none => none
    | some q =>
      match q.USD with
      | none => none
      | some u => some u.price

/-- `tokenData.symbol || 'UNKNOWN'` for one address of the response
body. -/
def symbolOf (data : CmcDataMap) (a : String) : String :=
  match mapGet data a with
  | none => "UNKNOWN"
  | some td => jsOr td.symbol "UNKNOWN"

/-- The cache-first split loop of `getTokenPrices`: for each normalized
address, a valid cached entry writes its price into `result`, otherwise
the address is pushed onto `uncachedAddresses` (in source order). -/
def cacheSplit (s : PriceServiceState) (now : Int)
    (result : List (String × Rat)) :
    List String → List (String × Rat) × List String
  | [] => (result, [])
  | a :: rest =>
    match getCachedPrice s now a with
    | some cached => cacheSplit s now (mapSet result a cached.priceUsd) rest
    | none =>
      let p := cacheSplit s now result rest
      (p.1, a :: p.2)

/-- The response-parsing loop of `getTokenPrices`: for each uncached
address, a well-formed `quote.USD` writes the price into the cache (with
the current time) and into `result`; otherwise `result` gets 0. -/
def applyQuoteLoop (now : Int) (data : CmcDataMap) :
    List String → List (String × PriceData) → List (String × Rat) →
    List (String × PriceData) × List (String × Rat)
  | [], cache, result => (cache, result)
  | a :: rest, cache, result =>
    match quoteOf data a with
    | some p =>
      applyQuoteLoop now data rest
        (mapSet cache a (PriceData.mk a (symbolOf data a) p now))
        (mapSet result a p)
    | none => applyQuoteLoop now data rest cache (mapSet result a 0)

/-- Result of one `getTokenPrices` call: the state after the call, the
returned `Map<address, priceUsd>`, whether an `axios.get` was issued,
and the `uncachedAddresses` batch sent remotely (empty when no request
was issued). -/
structure GtpResult where
  state : PriceServiceState
  result : List (String × Rat)
  remoteCalled : Bool
  batch : List String
deriving DecidableEq, Repr

/-- The comma-joined `addressParam` built from the batch. -/
def addressParamOf (batch : List String) : String :=
  String.intercalate "," batch

/-- Embedding of `PriceService.getTokenPrices(addresses, chainId)`.
`now` is the value of `Date.now()` during the call and `remote` the
outcome of the `axios.get` call (consulted only when a request is
issued). With no API key every address maps (lowercased) to 0 and no
request is issued. Otherwise addresses are normalized to lowercase,
split against the cache, and — when misses exist — one remote request
is issued: a rejection writes 0 for every miss, a resolution without a
data object writes nothing, and a data object is folded over the
misses by `applyQuoteLoop`. -/
def getTokenPrices (s : PriceServiceState) (now : Int)
    (addresses : List String) (chainId : Int) (remote : RemoteOutcome) :
    GtpResult :=
  if s.apiKey = "" then
    { state := s
      result := addresses.foldl (fun r a => mapSet r (lcStr a) (0 : Rat)) []
      remoteCalled := false
      batch := [] }
  else
    let normalizedAddresses := addresses.map lcStr
    let split := cacheSplit s now [] normalizedAddresses
    if split.2 = [] then
      { state := s, result := split.1, remoteCalled := false, batch := [] }
    else
      match remote with
      | RemoteOutcome.reject =>
        { state := s
          result := split.2.foldl (fun r a => mapSet r a (0 : Rat)) split.1
          remoteCalled := true
          batch := split.2 }
      | RemoteOutcome.resolve none =>
        { state := s, result := split.1, remoteCalled := true
          batch := split.2 }
      | RemoteOutcome.resolve (some data) =>
        let folded := applyQuoteLoop now data split.2 s.priceCache split.1
        { state := { s with priceCache := folded.1 }
          result := folded.2
          remoteCalled := true
          batch := split.2 }

/-- `clearCache()`: empty the price cache. -/
def clearCache (s : PriceServiceState) : PriceServiceState :=
  { s with priceCache := [] }

/-- `getCacheSize()`. -/
def getCacheSize (s : PriceServiceState) : Nat :=
  s.priceCache.length

/-- One character of the class `[a-fA-F0-9]`. -/
def isHexDigit (c : Char) : Bool :=
  (('0' ≤ c ∧ c ≤ '9') ∨ ('a' ≤ c ∧ c ≤ 'f') ∨ ('A' ≤ c ∧ c ≤ 'F') : Prop)

/-- The test `/^0x[a-fA-F0-9]{40}$/.test(walletAddress)` (an empty
address also fails the regex, covering the `!walletAddress` guard):
the characters are `0`, `x`, then exactly 40 hex digits. -/
def validWalletAddress (s : String) : Bool :=
  match s.data with
  | '0' :: 'x' :: rest => rest.length = 40 && rest.all isHexDigit
  | _ => false

/-- A JavaScript whitespace character relevant to `parseInt`. -/
def isJsSpace (c : Char) : Bool :=
  c = ' ' || c = '\t' || c = '\n' || c = '\r'

/-- Numeric value of the longest decimal-digit prefix. -/
def digitsVal (cs : List Char) : Nat :=
  cs.foldl (fun n c => 10 * n + (c.toNat - 48)) 0

/-- Embedding of `parseInt(s, 10)`: skip leading whitespace, take an
optional sign, then the longest digit prefix; `none` models `NaN` (no
digits). -/
def jsParseInt (s : String) : Option Int :=
  let cs := s.data.dropWhile isJsSpace
  let signed : Int × List Char :=
    match cs with
    | '-' :: rest => (-1, rest)
    | '+' :: rest => (1, rest)
    | _ => (1, cs)
  let ds := signed.2.takeWhile (fun c => '0' ≤ c && c ≤ '9')
  if ds = [] then none else some (signed.1 * (digitsVal ds : Int))

/-- The allow-list `[1, 56, 8453, 42161, 1301]` of the route handler. -/
def supportedChainIds : List Int := [1, 56, 8453, 42161, 1301]

/-- Outcome of the `/v4/positions/:walletAddress` handler before the
core runs: a 400 error envelope with a message, or a call to
`uniswapV4Service.getPositions(walletAddress, chainId)`. -/
inductive RouteOutcome where
  | badRequest : String → RouteOutcome
  | callCore : String → Option Int → RouteOutcome
deriving DecidableEq, Repr

/-- Embedding of the validation logic of the
`GET /v4/positions/:walletAddress` handler (string `chainId` query
parameter; `none` models an absent parameter and `some ""` the falsy
empty string, which skips the chainId validation). -/
def v4PositionsRoute (walletAddress : String) (chainIdParam : Option String) :
    RouteOutcome :=
  if ¬ validWalletAddress walletAddress then
    RouteOutcome.badRequest "Invalid wallet address format"
  else
    match chainIdParam with
    | none => RouteOutcome.callCore walletAddress none
    | some p =>
      if p = "" then RouteOutcome.callCore walletAddress none
      else
        match jsParseInt p with
        | none =>
          RouteOutcome.badRequest "Invalid chainId. Supported: 1, 56, 8453, 42161, 1301"
        | some n =>
          if n ∈ supportedChainIds then RouteOutcome.callCore walletAddress (some n)
          else
            RouteOutcome.badRequest "Invalid chainId. Supported: 1, 56, 8453, 42161, 1301"

/-- One asset leg of a position (spec section 3). -/
structure AssetLeg where
  token : String
  symbol : String
  amount : String
  decimals : Nat
  usdValue : Rat
deriving DecidableEq, Repr

/-- A Uniswap V4 liquidity position (spec section 3). -/
structure V4Position where
  tokenId : String
  chainId : Int
  poolAddress : String
  token0 : AssetLeg
  token1 : AssetLeg
  liquidity : String
  tickLower : Int
  tickUpper : Int
  feesUsd : Rat
  totalValueUsd : Rat
deriving DecidableEq, Repr

/-- One `chainErrors` entry. -/
structure ChainError where
  chainId : Int
  error : String
deriving DecidableEq, Repr

/-- The aggregation result (spec section 3). -/
structure AggregationResult where
  success : Bool
  positions : List V4Position
  totalValueUsd : Rat
  totalFeesUsd : Rat
  chainErrors : List ChainError
deriving DecidableEq, Repr

/-- The full supported chain set used when no filter is given. -/
def SUPPORTED_CHAIN_IDS : List Int := [1, 56, 8453, 42161, 1301]

/-- Modelled from the spec: the chain-set resolution of
`UniswapV4Service.getPositions`, whose source is not under `src/` (only
its unit tests are) — "either the single requested chain, or the full
supported set (currently 5 chains) when no filter is given"
(section 4.4 step 2). -/
def resolveChainSet (chainId : Option Int) : List Int :=
  match chainId with
  | some c => [c]
  | none => SUPPORTED_CHAIN_IDS

/-- Modelled from the spec: `UniswapV4Service.getPositions`, whose
source is not under `src/` (only its unit tests are). Section 4.4: one
fetch per chain in the resolved set, each settling independently as
`Ok(positions)` or `Err(reason)`; successes are appended to the
aggregate, failures become `{chainId, error}` entries of `chainErrors`;
totals sum `totalValueUsd` and `feesUsd` over surviving positions; the
result is always marked successful at this layer. The per-chain fetch
is passed in as a function `fetch`; USD enrichment of the legs does not
affect the claims settled here and the fetched positions are taken as
already enriched. -/
def getPositions (fetch : Int → Except String (List V4Position))
    (walletAddress : String) (chainId : Option Int) : AggregationResult :=
  let chains := resolveChainSet chainId
  let positions :=
    chains.foldr
      (fun c acc =>
        match fetch c with
        | Except.ok ps => ps ++ acc
        | Except.error _ => acc) []
  let chainErrors :=
    chains.foldr
      (fun c acc =>
        match fetch c with
        | Except.ok _ => acc
        | Except.error e => ChainError.mk c e :: acc) []
  { success := true
    positions := positions
    totalValueUsd := positions.foldl (fun t p => t + p.totalValueUsd) 0
    totalFeesUsd := positions.foldl (fun t p => t + p.feesUsd) 0
    chainErrors := chainErrors }

theorem mapGet_mapSet {α : Type} (m : List (String × α)) (k x : String) (v : α) :
    mapGet (mapSet m k v) x = if k = x then some v else mapGet m x := by
  induction m with
  | nil => simp [mapSet, mapGet]
  | cons hd tl ih =>
    obtain ⟨k2, v2⟩ := hd
    by_cases h2 : k2 = k
    · subst h2
      by_cases h3 : k2 = x <;> simp [mapSet, mapGet, h3]
    · by_cases h3 : k2 = x
      · have hkx : ¬ k = x := fun h => h2 (h3.trans h.symm)
        have hxk : ¬ x = k := fun h => hkx h.symm
        simp [mapSet, mapGet, h2, h3, hkx, hxk]
      · simp [mapSet, mapGet, h2, h3, ih]

theorem lcChar_fix (c : Char)
    (h1 : ¬ c = 'A') (h2 : ¬ c = 'B') (h3 : ¬ c = 'C') (h4 : ¬ c = 'D')
    (h5 : ¬ c = 'E') (h6 : ¬ c = 'F') (h7 : ¬ c = 'G') (h8 : ¬ c = 'H')
    (h9 : ¬ c = 'I') (h10 : ¬ c = 'J') (h11 : ¬ c = 'K') (h12 : ¬ c = 'L')
    (h13 : ¬ c = 'M') (h14 : ¬ c = 'N') (h15 : ¬ c = 'O') (h16 : ¬ c = 'P')
    (h17 : ¬ c = 'Q') (h18 : ¬ c = 'R') (h19 : ¬ c = 'S') (h20 : ¬ c = 'T')
    (h21 : ¬ c = 'U') (h22 : ¬ c = 'V') (h23 : ¬ c = 'W') (h24 : ¬ c = 'X')
    (h25 : ¬ c = 'Y') (h26 : ¬ c = 'Z')
    : lcChar c = c := by
  simp only [lcChar]

theorem lcChar_idem (c : Char) : lcChar (lcChar c) = lcChar c := by
  by_cases h1 : c = 'A'
  · subst h1; decide
  by_cases h2 : c = 'B'
  · subst h2; decide
  by_cases h3 : c = 'C'
  · subst h3; decide
  by_cases h4 : c = 'D'
  · subst h4; decide
  by_cases h5 : c = 'E'
  · subst h5; decide
  by_cases h6 : c = 'F'
  · subst h6; decide
  by_cases h7 : c = 'G'
  · subst h7; decide
  by_cases h8 : c = 'H'
  · subst h8; decide
  by_cases h9 : c = 'I'
  · subst h9; decide
  by_cases h10 : c = 'J'
  · subst h10; decide
  by_cases h11 : c = 'K'
  · subst h11; decide
  by_cases h12 : c = 'L'
  · subst h12; decide
  by_cases h13 : c = 'M'
  · subst h13; decide
  by_cases h14 : c = 'N'
  · subst h14; decide
  by_cases h15 : c = 'O'
  · subst h15; decide
  by_cases h16 : c = 'P'
  · subst h16; decide
  by_cases h17 : c = 'Q'
  · subst h17; decide
  by_cases h18 : c = 'R'
  · subst h18; decide
  by_cases h19 : c = 'S'
  · subst h19; decide
  by_cases h20 : c = 'T'
  · subst h20; decide
  by_cases h21 : c = 'U'
  · subst h21; decide
  by_cases h22 : c = 'V'
  · subst h22; decide
  by_cases h23 : c = 'W'
  · subst h23; decide
  by_cases h24 : c = 'X'
  · subst h24; decide
  by_cases h25 : c = 'Y'
  · subst h25; decide
  by_cases h26 : c = 'Z'
  · subst h26; decide
  simp only [lcChar_fix c h1 h2 h3 h4 h5 h6 h7 h8 h9 h10 h11 h12 h13 h14 h15 h16 h17 h18 h19 h20 h21 h22 h23 h24 h25 h26]

theorem lcStr_idem (s : String) : lcStr (lcStr s) = lcStr s := by
  unfold lcStr
  simp [List.map_map, Function.comp_def, lcChar_idem]

theorem getCachedPrice_lcStr (s : PriceServiceState) (now : Int) (a : String) :
    getCachedPrice s now (lcStr a) = getCachedPrice s now a := by
  unfold getCachedPrice
  rw [lcStr_idem]


theorem cacheSplit_snd (s : PriceServiceState) (now : Int)
    (r0 : List (String × Rat)) (addrs : List String) :
    (cacheSplit s now r0 addrs).2
      = addrs.filter (fun a => (getCachedPrice s now a).isNone) := by
  induction addrs generalizing r0 with
  | nil => simp [cacheSplit]
  | cons a rest ih =>
    cases h : getCachedPrice s now a with
    | some d => simp [cacheSplit, h, ih, List.filter_cons]
    | none => simp [cacheSplit, h, ih, List.filter_cons]

theorem cacheSplit_fst_other (s : PriceServiceState) (now : Int)
    (r0 : List (String × Rat)) (addrs : List String) (x : String)
    (hx : getCachedPrice s now x = none ∨ x ∉ addrs) :
    mapGet (cacheSplit s now r0 addrs).1 x = mapGet r0 x := by
  induction addrs generalizing r0 with
  | nil => simp [cacheSplit]
  | cons a rest ih =>
    have hxrest : getCachedPrice s now x = none ∨ x ∉ rest := by
      rcases hx with h | h
      · exact Or.inl h
      · exact Or.inr (fun hm => h (List.mem_cons_of_mem a hm))
    cases h : getCachedPrice s now a with
    | some d =>
      have hax : ¬ a = x := by
        intro he
        rcases hx with h2 | h2
        · rw [he, h2] at h; cases h
        · exact h2 (he ▸ List.mem_cons_self a rest)
      simp only [cacheSplit, h]
      rw [ih _ hxrest, mapGet_mapSet]
      simp [hax]
    | none =>
      simp only [cacheSplit, h]
      exact ih _ hxrest

theorem cacheSplit_fst_hit (s : PriceServiceState) (now : Int)
    (r0 : List (String × Rat)) (addrs : List String) (x : String) (d : PriceData)
    (hx : getCachedPrice s now x = some d) (hmem : x ∈ addrs) :
    mapGet (cacheSplit s now r0 addrs).1 x = some d.priceUsd := by
  induction addrs generalizing r0 with
  | nil => cases hmem
  | cons a rest ih =>
    by_cases hr : x ∈ rest
    · cases h : getCachedPrice s now a with
      | some d2 => simp only [cacheSplit, h]; exact ih _ hr
      | none => simp only [cacheSplit, h]; exact ih _ hr
    · have hxa : x = a := by
        rcases List.mem_cons.mp hmem with h | h
        · exact h
        · exact absurd h hr
      subst hxa
      simp only [cacheSplit, hx]
      rw [cacheSplit_fst_other s now _ rest x (Or.inr hr), mapGet_mapSet]
      simp

theorem aql_result_other (now : Int) (data : CmcDataMap) (us : List String)
    (c0 : List (String × PriceData)) (r0 : List (String × Rat)) (x : String)
    (hx : x ∉ us) :
    mapGet (applyQuoteLoop now data us c0 r0).2 x = mapGet r0 x := by
  induction us generalizing c0 r0 with
  | nil => simp [applyQuoteLoop]
  | cons a rest ih =>
    have hxr : x ∉ rest := fun hm => hx (List.mem_cons_of_mem a hm)
    have hax : ¬ a = x := fun he => hx (he ▸ List.mem_cons_self a rest)
    cases h : quoteOf data a with
    | some p =>
      simp only [applyQuoteLoop, h]
      rw [ih _ _ hxr, mapGet_mapSet]
      simp [hax]
    | none =>
      simp only [applyQuoteLoop, h]
      rw [ih _ _ hxr, mapGet_mapSet]
      simp [hax]

theorem aql_cache_other (now : Int) (data : CmcDataMap) (us : List String)
    (c0 : List (String × PriceData)) (r0 : List (String × Rat)) (x : String)
    (hx : x ∉ us ∨ quoteOf data x = none) :
    mapGet (applyQuoteLoop now data us c0 r0).1 x = mapGet c0 x := by
  induction us generalizing c0 r0 with
  | nil => simp [applyQuoteLoop]
  | cons a rest ih =>
    have hxrest : x ∉ rest ∨ quoteOf data x = none := by
      rcases hx with h | h
      · exact Or.inl (fun hm => h (List.mem_cons_of_mem a hm))
      · exact Or.inr h
    cases h : quoteOf data a with
    | some p =>
      have hax : ¬ a = x := by
        intro he
        rcases hx with h2 | h2
        · exact h2 (he ▸ List.mem_cons_self a rest)
        · rw [he, h2] at h; cases h
      simp only [applyQuoteLoop, h]
      rw [ih _ _ hxrest, mapGet_mapSet]
      simp [hax]
    | none =>
      simp only [applyQuoteLoop, h]
      exact ih _ _ hxrest

theorem aql_result_mem (now : Int) (data : CmcDataMap) (us : List String)
    (c0 : List (String × PriceData)) (r0 : List (String × Rat)) (x : String)
    (hx : x ∈ us) :
    mapGet (applyQuoteLoop now data us c0 r0).2 x
      = some ((quoteOf data x).getD 0) := by
  induction us generalizing c0 r0 with
  | nil => cases hx
  | cons a rest ih =>
    by_cases hr : x ∈ rest
    · cases h : quoteOf data a with
      | some p => simp only [applyQuoteLoop, h]; exact ih _ _ hr
      | none => simp only [applyQuoteLoop, h]; exact ih _ _ hr
    · have hxa : x = a := by
        rcases List.mem_cons.mp hx with h | h
        · exact h
        · exact absurd h hr
      subst hxa
      cases h : quoteOf data x with
      | some p =>
        simp only [applyQuoteLoop, h]
        rw [aql_result_other now data rest _ _ x hr, mapGet_mapSet]
        simp
      | none =>
        simp only [applyQuoteLoop, h]
        rw [aql_result_other now data rest _ _ x hr, mapGet_mapSet]
        simp

theorem aql_cache_mem (now : Int) (data : CmcDataMap) (us : List String)
    (c0 : List (String × PriceData)) (r0 : List (String × Rat)) (x : String)
    (p : Rat) (hx : x ∈ us) (hq : quoteOf data x = some p) :
    mapGet (applyQuoteLoop now data us c0 r0).1 x
      = some (PriceData.mk x (symbolOf data x) p now) := by
  induction us generalizing c0 r0 with
  | nil => cases hx
  | cons a rest ih =>
    by_cases hr : x ∈ rest
    · cases h : quoteOf data a with
      | some p2 => simp only [applyQuoteLoop, h]; exact ih _ _ hr
      | none => simp only [applyQuoteLoop, h]; exact ih _ _ hr
    · have hxa : x = a := by
        rcases List.mem_cons.mp hx with h | h
        · exact h
        · exact absurd h hr
      subst hxa
      simp only [applyQuoteLoop, hq]
      rw [aql_cache_other now data rest _ _ x (Or.inl hr), mapGet_mapSet]
      simp

theorem foldl_setZero_get (f : String → String) (addrs : List String)
    (r0 : List (String × Rat)) (x : String) :
    mapGet (addrs.foldl (fun r a => mapSet r (f a) (0 : Rat)) r0) x
      = if x ∈ addrs.map f then some 0 else mapGet r0 x := by
  induction addrs generalizing r0 with
  | nil => simp
  | cons a rest ih =>
    simp only [List.foldl_cons, List.map_cons, List.mem_cons]
    rw [ih]
    by_cases hx : x ∈ rest.map f
    · simp [hx]
    · by_cases hfa : f a = x
      · simp [hx, hfa.symm, mapGet_mapSet]
      · have hxf : ¬ x = f a := fun h => hfa h.symm
        simp [hx, hxf, mapGet_mapSet, hfa]

theorem getTokenPrices_noKey (s : PriceServiceState) (now : Int)
    (addresses : List String) (chainId : Int) (remote : RemoteOutcome)
    (h : s.apiKey = "") :
    getTokenPrices s now addresses chainId remote
      = { state := s
          result := addresses.foldl (fun r a => mapSet r (lcStr a) (0 : Rat)) []
          remoteCalled := false
          batch := [] } := by
  simp [getTokenPrices, h]

theorem getTokenPrices_allHit (s : PriceServiceState) (now : Int)
    (addresses : List String) (chainId : Int) (remote : RemoteOutcome)
    (h : ¬ s.apiKey = "")
    (h2 : (cacheSplit s now [] (addresses.map lcStr)).2 = []) :
    getTokenPrices s now addresses chainId remote
      = { state := s
          result := (cacheSplit s now [] (addresses.map lcStr)).1
          remoteCalled := false
          batch := [] } := by
  simp [getTokenPrices, h, h2]

theorem getTokenPrices_reject (s : PriceServiceState) (now : Int)
    (addresses : List String) (chainId : Int)
    (h : ¬ s.apiKey = "")
    (h2 : ¬ (cacheSplit s now [] (addresses.map lcStr)).2 = []) :
    getTokenPrices s now addresses chainId RemoteOutcome.reject
      = { state := s
          result := (cacheSplit s now [] (addresses.map lcStr)).2.foldl
            (fun r a => mapSet r a (0 : Rat))
            (cacheSplit s now [] (addresses.map lcStr)).1
          remoteCalled := true
          batch := (cacheSplit s now [] (addresses.map lcStr)).2 } := by
  simp [getTokenPrices, h, h2]

theorem getTokenPrices_resolveNone (s : PriceServiceState) (now : Int)
    (addresses : List String) (chainId : Int)
    (h : ¬ s.apiKey = "")
    (h2 : ¬ (cacheSplit s now [] (addresses.map lcStr)).2 = []) :
    getTokenPrices s now addresses chainId (RemoteOutcome.resolve none)
      = { state := s
          result := (cacheSplit s now [] (addresses.map lcStr)).1
          remoteCalled := true
          batch := (cacheSplit s now [] (addresses.map lcStr)).2 } := by
  simp [getTokenPrices, h, h2]

theorem getTokenPrices_resolveSome (s : PriceServiceState) (now : Int)
    (addresses : List String) (chainId : Int) (data : CmcDataMap)
    (h : ¬ s.apiKey = "")
    (h2 : ¬ (cacheSplit s now [] (addresses.map lcStr)).2 = []) :
    getTokenPrices s now addresses chainId (RemoteOutcome.resolve (some data))
      = { state := { s with priceCache :=
            (applyQuoteLoop now data (cacheSplit s now [] (addresses.map lcStr)).2
              s.priceCache (cacheSplit s now [] (addresses.map lcStr)).1).1 }
          result := (applyQuoteLoop now data (cacheSplit s now [] (addresses.map lcStr)).2
              s.priceCache (cacheSplit s now [] (addresses.map lcStr)).1).2
          remoteCalled := true
          batch := (cacheSplit s now [] (addresses.map lcStr)).2 } := by
  simp [getTokenPrices, h, h2]

theorem mem_filter_isNone_of_miss (s : PriceServiceState) (now : Int)
    (ns : List String) (x : String) (hmem : x ∈ ns)
    (hmiss : getCachedPrice s now x = none) :
    x ∈ ns.filter (fun a => (getCachedPrice s now a).isNone) := by
  refine List.mem_filter.mpr ⟨hmem, ?_⟩
  simp [hmiss]

theorem not_mem_filter_isNone_of_hit (s : PriceServiceState) (now : Int)
    (ns : List String) (x : String) (d : PriceData)
    (hhit : getCachedPrice s now x = some d) :
    x ∉ ns.filter (fun a => (getCachedPrice s now a).isNone) := by
  intro hmem
  have := (List.mem_filter.mp hmem).2
  simp [hhit] at this

theorem not_mem_filter_of_not_mem (s : PriceServiceState) (now : Int)
    (ns : List String) (x : String) (hmem : x ∉ ns) :
    x ∉ ns.filter (fun a => (getCachedPrice s now a).isNone) :=
  fun hf => hmem (List.mem_filter.mp hf).1

theorem gtp_result_keys (s : PriceServiceState) (now : Int)
    (addresses : List String) (chainId : Int) (remote : RemoteOutcome)
    (x : String) (hx : x ∉ addresses.map lcStr) :
    mapGet (getTokenPrices s now addresses chainId remote).result x = none := by
  by_cases hk : s.apiKey = ""
  · rw [getTokenPrices_noKey s now addresses chainId remote hk]
    simp only
    rw [foldl_setZero_get]
    simp [hx, mapGet]
  · have hsplit1 : mapGet (cacheSplit s now [] (addresses.map lcStr)).1 x = none := by
      rw [cacheSplit_fst_other s now [] (addresses.map lcStr) x (Or.inr hx)]
      rfl
    have hnb : x ∉ (cacheSplit s now [] (addresses.map lcStr)).2 := by
      rw [cacheSplit_snd]
      exact not_mem_filter_of_not_mem s now _ x hx
    by_cases h2 : (cacheSplit s now [] (addresses.map lcStr)).2 = []
    · rw [getTokenPrices_allHit s now addresses chainId remote hk h2]
      exact hsplit1
    · cases remote with
      | reject =>
        rw [getTokenPrices_reject s now addresses chainId hk h2]
        simp only
        have := foldl_setZero_get (fun a => a)
          (cacheSplit s now [] (addresses.map lcStr)).2
          (cacheSplit s now [] (addresses.map lcStr)).1 x
        rw [List.map_id'] at this
        rw [this, if_neg hnb]
        exact hsplit1
      | resolve o =>
        cases o with
        | none =>
          rw [getTokenPrices_resolveNone s now addresses chainId hk h2]
          exact hsplit1
        | some data =>
          rw [getTokenPrices_resolveSome s now addresses chainId data hk h2]
          simp only
          rw [aql_result_other now data _ _ _ x hnb]
          exact hsplit1

theorem gtp_cache_no_delete (s : PriceServiceState) (now : Int)
    (addresses : List String) (chainId : Int) (remote : RemoteOutcome)
    (k : String) (h : mapGet s.priceCache k ≠ none) :
    mapGet (getTokenPrices s now addresses chainId remote).state.priceCache k
      ≠ none := by
  by_cases hk : s.apiKey = ""
  · rw [getTokenPrices_noKey s now addresses chainId remote hk]
    exact h
  · by_cases h2 : (cacheSplit s now [] (addresses.map lcStr)).2 = []
    · rw [getTokenPrices_allHit s now addresses chainId remote hk h2]
      exact h
    · cases remote with
      | reject =>
        rw [getTokenPrices_reject s now addresses chainId hk h2]
        exact h
      | resolve o =>
        cases o with
        | none =>
          rw [getTokenPrices_resolveNone s now addresses chainId hk h2]
          exact h
        | some data =>
          rw [getTokenPrices_resolveSome s now addresses chainId data hk h2]
          simp only
          cases hq : quoteOf data k with
          | none =>
            rw [aql_cache_other now data _ _ _ k (Or.inr hq)]
            exact h
          | some p =>
            by_cases hmem : k ∈ (cacheSplit s now [] (addresses.map lcStr)).2
            · rw [aql_cache_mem now data _ _ _ k p hmem hq]
              simp
            · rw [aql_cache_other now data _ _ _ k (Or.inl hmem)]
              exact h

theorem gtp_cache_change (s : PriceServiceState) (now : Int)
    (addresses : List String) (chainId : Int) (remote : RemoteOutcome)
    (k : String)
    (h : mapGet (getTokenPrices s now addresses chainId remote).state.priceCache k
           ≠ mapGet s.priceCache k) :
    ∃ data p, remote = RemoteOutcome.resolve (some data)
      ∧ quoteOf data k = some p
      ∧ mapGet (getTokenPrices s now addresses chainId remote).state.priceCache k
          = some (PriceData.mk k (symbolOf data k) p now) := by
  by_cases hk : s.apiKey = ""
  · rw [getTokenPrices_noKey s now addresses chainId remote hk] at h
    exact absurd rfl h
  · by_cases h2 : (cacheSplit s now [] (addresses.map lcStr)).2 = []
    · rw [getTokenPrices_allHit s now addresses chainId remote hk h2] at h
      exact absurd rfl h
    · cases remote with
      | reject =>
        rw [getTokenPrices_reject s now addresses chainId hk h2] at h
        exact absurd rfl h
      | resolve o =>
        cases o with
        | none =>
          rw [getTokenPrices_resolveNone s now addresses chainId hk h2] at h
          exact absurd rfl h
        | some data =>
          rw [getTokenPrices_resolveSome s now addresses chainId data hk h2] at h ⊢
          simp only at h ⊢
          cases hq : quoteOf data k with
          | none =>
            rw [aql_cache_other now data _ _ _ k (Or.inr hq)] at h
            exact absurd rfl h
          | some p =>
            by_cases hmem : k ∈ (cacheSplit s now [] (addresses.map lcStr)).2
            · exact ⟨data, p, rfl, hq, aql_cache_mem now data _ _ _ k p hmem hq⟩
            · rw [aql_cache_other now data _ _ _ k (Or.inl hmem)] at h
              exact absurd rfl h

theorem gtp_result_hit (s : PriceServiceState) (now : Int)
    (addresses : List String) (chainId : Int) (remote : RemoteOutcome)
    (a : String) (d : PriceData) (hk : ¬ s.apiKey = "")
    (ha : a ∈ addresses) (hd : getCachedPrice s now a = some d) :
    mapGet (getTokenPrices s now addresses chainId remote).result (lcStr a)
      = some d.priceUsd := by
  have hd2 : getCachedPrice s now (lcStr a) = some d := by
    rw [getCachedPrice_lcStr]; exact hd
  have hmem : lcStr a ∈ addresses.map lcStr := List.mem_map_of_mem lcStr ha
  have hsplit1 :
      mapGet (cacheSplit s now [] (addresses.map lcStr)).1 (lcStr a)
        = some d.priceUsd :=
    cacheSplit_fst_hit s now [] (addresses.map lcStr) (lcStr a) d hd2 hmem
  have hnb : lcStr a ∉ (cacheSplit s now [] (addresses.map lcStr)).2 := by
    rw [cacheSplit_snd]
    exact not_mem_filter_isNone_of_hit s now _ (lcStr a) d hd2
  by_cases h2 : (cacheSplit s now [] (addresses.map lcStr)).2 = []
  · rw [getTokenPrices_allHit s now addresses chainId remote hk h2]
    exact hsplit1
  · cases remote with
    | reject =>
      rw [getTokenPrices_reject s now addresses chainId hk h2]
      simp only
      have := foldl_setZero_get (fun a => a)
        (cacheSplit s now [] (addresses.map lcStr)).2
        (cacheSplit s now [] (addresses.map lcStr)).1 (lcStr a)
      rw [List.map_id'] at this
      rw [this, if_neg hnb]
      exact hsplit1
    | resolve o =>
      cases o with
      | none =>
        rw [getTokenPrices_resolveNone s now addresses chainId hk h2]
        exact hsplit1
      | some data =>
        rw [getTokenPrices_resolveSome s now addresses chainId data hk h2]
        simp only
        rw [aql_result_other now data _ _ _ (lcStr a) hnb]
        exact hsplit1

theorem gtp_miss_mem_batch (s : PriceServiceState) (now : Int)
    (addresses : List String) (a : String)
    (ha : a ∈ addresses) (hm : getCachedPrice s now a = none) :
    lcStr a ∈ (cacheSplit s now [] (addresses.map lcStr)).2 := by
  have hm2 : getCachedPrice s now (lcStr a) = none := by
    rw [getCachedPrice_lcStr]; exact hm
  rw [cacheSplit_snd]
  exact mem_filter_isNone_of_miss s now _ (lcStr a)
    (List.mem_map_of_mem lcStr ha) hm2

theorem gtp_result_miss_reject (s : PriceServiceState) (now : Int)
    (addresses : List String) (chainId : Int) (a : String)
    (hk : ¬ s.apiKey = "") (ha : a ∈ addresses)
    (hm : getCachedPrice s now a = none) :
    mapGet (getTokenPrices s now addresses chainId RemoteOutcome.reject).result
      (lcStr a) = some 0 := by
  have hb := gtp_miss_mem_batch s now addresses a ha hm
  have h2 := List.ne_nil_of_mem hb
  rw [getTokenPrices_reject s now addresses chainId hk h2]
  simp only
  have := foldl_setZero_get (fun a => a)
    (cacheSplit s now [] (addresses.map lcStr)).2
    (cacheSplit s now [] (addresses.map lcStr)).1 (lcStr a)
  rw [List.map_id'] at this
  rw [this, if_pos hb]

theorem gtp_result_miss_resolveSome (s : PriceServiceState) (now : Int)
    (addresses : List String) (chainId : Int) (data : CmcDataMap) (a : String)
    (hk : ¬ s.apiKey = "") (ha : a ∈ addresses)
    (hm : getCachedPrice s now a = none) :
    mapGet (getTokenPrices s now addresses chainId
        (RemoteOutcome.resolve (some data))).result (lcStr a)
      = some ((quoteOf data (lcStr a)).getD 0) := by
  have hb := gtp_miss_mem_batch s now addresses a ha hm
  have h2 := List.ne_nil_of_mem hb
  rw [getTokenPrices_resolveSome s now addresses chainId data hk h2]
  simp only
  exact aql_result_mem now data _ _ _ (lcStr a) hb

theorem gtp_result_miss_resolveNone (s : PriceServiceState) (now : Int)
    (addresses : List String) (chainId : Int) (a : String)
    (hk : ¬ s.apiKey = "") (ha : a ∈ addresses)
    (hm : getCachedPrice s now a = none) :
    mapGet (getTokenPrices s now addresses chainId
        (RemoteOutcome.resolve none)).result (lcStr a) = none := by
  have hm2 : getCachedPrice s now (lcStr a) = none := by
    rw [getCachedPrice_lcStr]; exact hm
  have hb := gtp_miss_mem_batch s now addresses a ha hm
  have h2 := List.ne_nil_of_mem hb
  rw [getTokenPrices_resolveNone s now addresses chainId hk h2]
  rw [cacheSplit_fst_other s now [] (addresses.map lcStr) (lcStr a) (Or.inl hm2)]
  rfl

theorem gtp_state_unchanged_reject (s : PriceServiceState) (now : Int)
    (addresses : List String) (chainId : Int) (hk : ¬ s.apiKey = "") :
    (getTokenPrices s now addresses chainId RemoteOutcome.reject).state = s := by
  by_cases h2 : (cacheSplit s now [] (addresses.map lcStr)).2 = []
  · rw [getTokenPrices_allHit s now addresses chainId RemoteOutcome.reject hk h2]
  · rw [getTokenPrices_reject s now addresses chainId hk h2]

theorem gtp_remoteCalled_true (s : PriceServiceState) (now : Int)
    (addresses : List String) (chainId : Int) (remote : RemoteOutcome)
    (hk : ¬ s.apiKey = "")
    (h2 : ¬ (cacheSplit s now [] (addresses.map lcStr)).2 = []) :
    (getTokenPrices s now addresses chainId remote).remoteCalled = true := by
  cases remote with
  | reject => rw [getTokenPrices_reject s now addresses chainId hk h2]
  | resolve o =>
    cases o with
    | none => rw [getTokenPrices_resolveNone s now addresses chainId hk h2]
    | some data => rw [getTokenPrices_resolveSome s now addresses chainId data hk h2]

/-- C4: when no pricing credential (API key) is configured,
`getTokenPrices` returns exactly 0 for every requested address (stored
under its lowercased key), every entry of the returned map is 0, and no
remote pricing call is attempted. -/
theorem c4_no_key_zero_prices (s : PriceServiceState) (now : Int)
    (addresses : List String) (chainId : Int) (remote : RemoteOutcome)
    (h : s.apiKey = "") :
    (∀ a ∈ addresses,
       mapGet (getTokenPrices s now addresses chainId remote).result (lcStr a)
         = some 0)
    ∧ (∀ x, mapGet (getTokenPrices s now addresses chainId remote).result x = some 0
         ∨ mapGet (getTokenPrices s now addresses chainId remote).result x = none)
    ∧ (getTokenPrices s now addresses chainId remote).remoteCalled = false := by
  rw [getTokenPrices_noKey s now addresses chainId remote h]
  simp only
  refine ⟨?_, ?_, trivial⟩
  · intro a ha
    rw [foldl_setZero_get]
    simp [List.mem_map_of_mem lcStr ha]
  · intro x
    rw [foldl_setZero_get]
    by_cases hx : x ∈ addresses.map lcStr
    · simp [hx]
    · simp [hx, mapGet]

theorem c4_no_key_zero_prices_witness :
    mapGet (getTokenPrices ⟨"", []⟩ 0 ["0xAb"] 1 RemoteOutcome.reject).result
      (lcStr "0xAb") = some 0
    ∧ (getTokenPrices ⟨"", []⟩ 0 ["0xAb"] 1 RemoteOutcome.reject).remoteCalled
        = false := by
  have h := c4_no_key_zero_prices ⟨"", []⟩ 0 ["0xAb"] 1 RemoteOutcome.reject rfl
  exact ⟨h.1 "0xAb" (by simp), h.2.2⟩

/-- C5: `getCachedPrice` returns absent exactly when the key was never
stored or the stored entry's age strictly exceeds the 60 000 ms TTL;
a `getTokenPrices` call never deletes a cache entry (lazy expiry), and
only `clearCache` empties the cache. -/
theorem c5_lazy_expiry (s : PriceServiceState) (now : Int) (a : String)
    (addresses : List String) (chainId : Int) (remote : RemoteOutcome) :
    (getCachedPrice s now a = none ↔
       (mapGet s.priceCache (lcStr a) = none ∨
         ∃ d, mapGet s.priceCache (lcStr a) = some d
           ∧ now - d.timestamp > 60000))
    ∧ (∀ k, mapGet s.priceCache k ≠ none →
        mapGet (getTokenPrices s now addresses chainId remote).state.priceCache k
          ≠ none)
    ∧ (clearCache s).priceCache = [] := by
  refine ⟨?_,
    fun k h => gtp_cache_no_delete s now addresses chainId remote k h, rfl⟩
  unfold getCachedPrice
  cases hg : mapGet s.priceCache (lcStr a) with
  | none => simp
  | some d =>
    dsimp only
    have httl : CACHE_TTL_MS = (60000 : Int) := rfl
    rw [httl]
    by_cases ht : now - d.timestamp > (60000 : Int)
    · rw [if_pos ht]
      simp [ht]
    · rw [if_neg ht]
      simp [ht]

theorem c5_lazy_expiry_witness :
    getCachedPrice ⟨"k", [("0xa", ⟨"0xa", "WETH", 3000, 0⟩)]⟩ 60001 "0xA"
      = none :=
  (c5_lazy_expiry ⟨"k", [("0xa", ⟨"0xa", "WETH", 3000, 0⟩)]⟩ 60001 "0xA"
      [] 1 RemoteOutcome.reject).1.mpr
    (Or.inr ⟨⟨"0xa", "WETH", 3000, 0⟩, by decide, by decide⟩)

/-- C9: every key of the map returned by `getTokenPrices` is the
lowercasing of a requested address — including in the no-API-key
branch — so a caller that looks up the result under an original
mixed-case spelling (one not fixed by lowercasing) finds no entry. -/
theorem c9_lowercase_keys (s : PriceServiceState) (now : Int)
    (addresses : List String) (chainId : Int) (remote : RemoteOutcome)
    (addr : String) (h : lcStr addr ≠ addr) :
    (∀ x, x ∉ addresses.map lcStr →
       mapGet (getTokenPrices s now addresses chainId remote).result x = none)
    ∧ mapGet (getTokenPrices s now addresses chainId remote).result addr
        = none := by
  refine ⟨fun x hx => gtp_result_keys s now addresses chainId remote x hx, ?_⟩
  apply gtp_result_keys
  intro hmem
  rcases List.mem_map.mp hmem with ⟨b, _, hb⟩
  apply h
  rw [← hb, lcStr_idem]

theorem c9_lowercase_keys_witness :
    mapGet (getTokenPrices ⟨"k", []⟩ 0 ["0xAb"] 1 RemoteOutcome.reject).result
      "0xAb" = none :=
  (c9_lowercase_keys ⟨"k", []⟩ 0 ["0xAb"] 1 RemoteOutcome.reject "0xAb"
    (by decide)).2

/-- C10: a `getTokenPrices` call with no API key, or in which every
requested address is a fresh cache hit, leaves the price cache
unchanged; no call removes an entry; an entry changes only when the
remote call resolved with a data object carrying a well-formed USD
quote for that key (and then it holds that quote at the current time);
and `clearCache` empties the cache. -/
theorem c10_cache_frame (s : PriceServiceState) (now : Int)
    (addresses : List String) (chainId : Int) (remote : RemoteOutcome) :
    (s.apiKey = "" → (getTokenPrices s now addresses chainId remote).state = s)
    ∧ ((∀ a ∈ addresses, (getCachedPrice s now a).isSome) →
        (getTokenPrices s now addresses chainId remote).state = s)
    ∧ (∀ k, mapGet s.priceCache k ≠ none →
        mapGet (getTokenPrices s now addresses chainId remote).state.priceCache k
          ≠ none)
    ∧ (∀ k, mapGet (getTokenPrices s now addresses chainId remote).state.priceCache k
          ≠ mapGet s.priceCache k →
        ∃ data p, remote = RemoteOutcome.resolve (some data)
          ∧ quoteOf data k = some p
          ∧ mapGet (getTokenPrices s now addresses chainId remote).state.priceCache k
              = some (PriceData.mk k (symbolOf data k) p now))
    ∧ (clearCache s).priceCache = [] := by
  refine ⟨?_, ?_,
    fun k h => gtp_cache_no_delete s now addresses chainId remote k h,
    fun k h => gtp_cache_change s now addresses chainId remote k h, rfl⟩
  · intro h
    rw [getTokenPrices_noKey s now addresses chainId remote h]
  · intro h
    by_cases hk : s.apiKey = ""
    · rw [getTokenPrices_noKey s now addresses chainId remote hk]
    · have h2 : (cacheSplit s now [] (addresses.map lcStr)).2 = [] := by
        rw [cacheSplit_snd]
        rw [List.filter_eq_nil_iff]
        intro x hx
        rcases List.mem_map.mp hx with ⟨b, hb, hbx⟩
        have hs := h b hb
        subst hbx
        rw [getCachedPrice_lcStr]
        cases hg : getCachedPrice s now b with
        | none => rw [hg] at hs; cases hs
        | some d => simp
      rw [getTokenPrices_allHit s now addresses chainId remote hk h2]

theorem c10_cache_frame_witness :
    (getTokenPrices ⟨"k", [("0xa", ⟨"0xa", "WETH", 3000, 0⟩)]⟩ 5 ["0xA"] 1
        RemoteOutcome.reject).state
      = ⟨"k", [("0xa", ⟨"0xa", "WETH", 3000, 0⟩)]⟩ :=
  (c10_cache_frame ⟨"k", [("0xa", ⟨"0xa", "WETH", 3000, 0⟩)]⟩ 5 ["0xA"] 1
      RemoteOutcome.reject).2.1 (by decide)

/-- C1 (amended): provided the remote call does not resolve with a body
missing the data object, the mapping returned by `getTokenPrices` has
an entry for every requested address under its lowercased key: 0 when
no API key is configured; the cached price for a fresh cache hit; and
for a cache miss, the response's well-formed USD quote when present,
otherwise 0. -/
theorem c1_result_totality (s : PriceServiceState) (now : Int)
    (addresses : List String) (chainId : Int) (remote : RemoteOutcome)
    (a : String) (ho : remote ≠ RemoteOutcome.resolve none)
    (ha : a ∈ addresses) :
    (s.apiKey = "" →
       mapGet (getTokenPrices s now addresses chainId remote).result (lcStr a)
         = some 0)
    ∧ (¬ s.apiKey = "" →
        (∀ d, getCachedPrice s now a = some d →
           mapGet (getTokenPrices s now addresses chainId remote).result (lcStr a)
             = some d.priceUsd)
        ∧ (getCachedPrice s now a = none →
            (remote = RemoteOutcome.reject →
               mapGet (getTokenPrices s now addresses chainId remote).result
                 (lcStr a) = some 0)
            ∧ (∀ data, remote = RemoteOutcome.resolve (some data) →
               mapGet (getTokenPrices s now addresses chainId remote).result
                 (lcStr a) = some ((quoteOf data (lcStr a)).getD 0)))) := by
  constructor
  · intro hk
    rw [getTokenPrices_noKey s now addresses chainId remote hk]
    simp only
    rw [foldl_setZero_get]
    simp [List.mem_map_of_mem lcStr ha]
  · intro hk
    refine ⟨fun d hd => gtp_result_hit s now addresses chainId remote a d hk ha hd,
      fun hm => ⟨?_, ?_⟩⟩
    · intro he
      subst he
      exact gtp_result_miss_reject s now addresses chainId a hk ha hm
    · intro data he
      subst he
      exact gtp_result_miss_resolveSome s now addresses chainId data a hk ha hm

theorem c1_result_totality_witness :
    mapGet (getTokenPrices ⟨"k", []⟩ 0 ["0xA"] 1
        (RemoteOutcome.resolve
          (some [("0xa", ⟨some "WETH", some ⟨some ⟨3000⟩⟩⟩)]))).result
      (lcStr "0xA")
      = some ((quoteOf [("0xa", ⟨some "WETH", some ⟨some ⟨3000⟩⟩⟩)]
          (lcStr "0xA")).getD 0)
    ∧ (quoteOf [("0xa", ⟨some "WETH", some ⟨some ⟨3000⟩⟩⟩)]
        (lcStr "0xA")).getD 0 = (3000 : Rat) := by
  have h := c1_result_totality ⟨"k", []⟩ 0 ["0xA"] 1
    (RemoteOutcome.resolve (some [("0xa", ⟨some "WETH", some ⟨some ⟨3000⟩⟩⟩)]))
    "0xA" (by decide) (by simp)
  exact ⟨((h.2 (by decide)).2 (by decide)).2
    [("0xa", ⟨some "WETH", some ⟨some ⟨3000⟩⟩⟩)] rfl, by decide⟩

/-- C1 counterexample: with an API key configured and one uncached
requested address, a remote call that resolves without a data object
yields a result map containing no entry for that address (the claim
requires an entry, namely 0). -/
theorem c1_result_totality_counterexample :
    mapGet (getTokenPrices ⟨"k", []⟩ 0 ["0xa"] 1
        (RemoteOutcome.resolve none)).result "0xa" = none := by
  decide

/-- C2 (amended): when the remote pricing request rejects (timeout,
non-2xx, network error), `getTokenPrices` recovers inside the
component: every cache-miss address receives price 0, the state is
unchanged, and the call returns a normal result. A request that
resolves with a malformed payload (missing the data object) also
returns normally, but its cache-miss addresses are absent from the
result instead of being 0. -/
theorem c2_reject_recovery (s : PriceServiceState) (now : Int)
    (addresses : List String) (chainId : Int) (hk : ¬ s.apiKey = "") :
    (∀ a ∈ addresses, getCachedPrice s now a = none →
       mapGet (getTokenPrices s now addresses chainId RemoteOutcome.reject).result
         (lcStr a) = some 0)
    ∧ (getTokenPrices s now addresses chainId RemoteOutcome.reject).state = s
    ∧ (∀ a ∈ addresses, getCachedPrice s now a = none →
       mapGet (getTokenPrices s now addresses chainId
           (RemoteOutcome.resolve none)).result (lcStr a) = none) :=
  ⟨fun a ha hm => gtp_result_miss_reject s now addresses chainId a hk ha hm,
    gtp_state_unchanged_reject s now addresses chainId hk,
    fun a ha hm => gtp_result_miss_resolveNone s now addresses chainId a hk ha hm⟩

theorem c2_reject_recovery_witness :
    mapGet (getTokenPrices ⟨"k", []⟩ 0 ["0xB"] 1 RemoteOutcome.reject).result
      (lcStr "0xB") = some 0 :=
  (c2_reject_recovery ⟨"k", []⟩ 0 ["0xB"] 1 (by decide)).1 "0xB" (by simp)
    (by decide)

/-- C2 counterexample: a remote request that resolves with a malformed
payload (missing the data object) leaves the cache-miss address without
any entry, not with price 0, even though the call itself still issued a
remote request and returned normally. -/
theorem c2_reject_recovery_counterexample :
    mapGet (getTokenPrices ⟨"k", []⟩ 0 ["0xb"] 5
        (RemoteOutcome.resolve none)).result "0xb" = none
    ∧ (getTokenPrices ⟨"k", []⟩ 0 ["0xb"] 5
        (RemoteOutcome.resolve none)).remoteCalled = true := by
  decide

/-- C3 (amended): starting from an empty cache with an API key
configured, a first `getTokenPrices` call whose remote response carries
a well-formed USD quote for the address issues a remote call and caches
the quote; a second call with the same address within the 60 000 ms TTL
window issues no remote call and serves the cached price, so the two
calls issue one remote call in total; once the TTL has elapsed, the
second call issues a new remote call. A first call that fails to cache
the address (rejection or missing data) is retried remotely by the
second call even within the TTL. -/
theorem c3_ttl_idempotence (key addr : String) (cid1 cid2 : Int)
    (now1 now2 : Int) (data : CmcDataMap) (p : Rat) (o2 : RemoteOutcome)
    (hkey : ¬ key = "") (hq : quoteOf data (lcStr addr) = some p) :
    (getTokenPrices ⟨key, []⟩ now1 [addr] cid1
        (RemoteOutcome.resolve (some data))).remoteCalled = true
    ∧ (now2 - now1 ≤ 60000 →
        (getTokenPrices
            (getTokenPrices ⟨key, []⟩ now1 [addr] cid1
              (RemoteOutcome.resolve (some data))).state
            now2 [addr] cid2 o2).remoteCalled = false
        ∧ mapGet (getTokenPrices
            (getTokenPrices ⟨key, []⟩ now1 [addr] cid1
              (RemoteOutcome.resolve (some data))).state
            now2 [addr] cid2 o2).result (lcStr addr) = some p)
    ∧ (now2 - now1 > 60000 →
        (getTokenPrices
            (getTokenPrices ⟨key, []⟩ now1 [addr] cid1
              (RemoteOutcome.resolve (some data))).state
            now2 [addr] cid2 o2).remoteCalled = true) := by
  have hsplit1 : cacheSplit ⟨key, []⟩ now1 [] ([addr].map lcStr)
      = ([], [lcStr addr]) := by
    simp [cacheSplit, getCachedPrice, mapGet]
  have h21 : ¬ (cacheSplit ⟨key, []⟩ now1 [] ([addr].map lcStr)).2 = [] := by
    rw [hsplit1]
    simp
  have hstate1 : (getTokenPrices ⟨key, []⟩ now1 [addr] cid1
      (RemoteOutcome.resolve (some data))).state
      = ⟨key, [(lcStr addr,
          PriceData.mk (lcStr addr) (symbolOf data (lcStr addr)) p now1)]⟩ := by
    rw [getTokenPrices_resolveSome ⟨key, []⟩ now1 [addr] cid1 data hkey h21]
    simp [hsplit1, applyQuoteLoop, hq, mapSet]
  refine ⟨gtp_remoteCalled_true ⟨key, []⟩ now1 [addr] cid1
      (RemoteOutcome.resolve (some data)) hkey h21, ?_, ?_⟩
  · intro hle
    rw [hstate1]
    have hhit : getCachedPrice
        ⟨key, [(lcStr addr,
          PriceData.mk (lcStr addr) (symbolOf data (lcStr addr)) p now1)]⟩
        now2 addr
        = some (PriceData.mk (lcStr addr) (symbolOf data (lcStr addr)) p now1) := by
      have hmg : mapGet [(lcStr addr,
          PriceData.mk (lcStr addr) (symbolOf data (lcStr addr)) p now1)]
          (lcStr addr)
          = some (PriceData.mk (lcStr addr) (symbolOf data (lcStr addr)) p now1) := by
        simp [mapGet]
      unfold getCachedPrice
      dsimp only
      rw [hmg]
      dsimp only
      rw [if_neg]
      dsimp only
      have httl : CACHE_TTL_MS = (60000 : Int) := rfl
      rw [httl]
      omega
    have hsplit2 : cacheSplit
        ⟨key, [(lcStr addr,
          PriceData.mk (lcStr addr) (symbolOf data (lcStr addr)) p now1)]⟩
        now2 [] ([addr].map lcStr)
        = ([(lcStr addr, p)], []) := by
      simp only [List.map_cons, List.map_nil, cacheSplit, getCachedPrice_lcStr, hhit]
      simp [mapSet]
    have h22 : (cacheSplit
        ⟨key, [(lcStr addr,
          PriceData.mk (lcStr addr) (symbolOf data (lcStr addr)) p now1)]⟩
        now2 [] ([addr].map lcStr)).2 = [] := by
      rw [hsplit2]
    rw [getTokenPrices_allHit _ now2 [addr] cid2 o2 hkey h22]
    simp only [hsplit2]
    simp [mapGet]
  · intro hgt
    rw [hstate1]
    have hmiss : getCachedPrice
        ⟨key, [(lcStr addr,
          PriceData.mk (lcStr addr) (symbolOf data (lcStr addr)) p now1)]⟩
        now2 addr = none := by
      have hmg : mapGet [(lcStr addr,
          PriceData.mk (lcStr addr) (symbolOf data (lcStr addr)) p now1)]
          (lcStr addr)
          = some (PriceData.mk (lcStr addr) (symbolOf data (lcStr addr)) p now1) := by
        simp [mapGet]
      unfold getCachedPrice
      dsimp only
      rw [hmg]
      dsimp only
      rw [if_pos]
      dsimp only
      have httl : CACHE_TTL_MS = (60000 : Int) := rfl
      rw [httl]
      omega
    have hsplit2 : cacheSplit
        ⟨key, [(lcStr addr,
          PriceData.mk (lcStr addr) (symbolOf data (lcStr addr)) p now1)]⟩
        now2 [] ([addr].map lcStr)
        = ([], [lcStr addr]) := by
      simp only [List.map_cons, List.map_nil, cacheSplit, getCachedPrice_lcStr, hmiss]
    have h22 : ¬ (cacheSplit
        ⟨key, [(lcStr addr,
          PriceData.mk (lcStr addr) (symbolOf data (lcStr addr)) p now1)]⟩
        now2 [] ([addr].map lcStr)).2 = [] := by
      rw [hsplit2]
      simp
    exact gtp_remoteCalled_true _ now2 [addr] cid2 o2 hkey h22

theorem c3_ttl_idempotence_witness :
    (getTokenPrices
        (getTokenPrices ⟨"k", []⟩ 0 ["0xA"] 1
          (RemoteOutcome.resolve
            (some [("0xa", ⟨some "WETH", some ⟨some ⟨3000⟩⟩⟩)]))).state
        60000 ["0xA"] 1 RemoteOutcome.reject).remoteCalled = false
    ∧ mapGet (getTokenPrices
        (getTokenPrices ⟨"k", []⟩ 0 ["0xA"] 1
          (RemoteOutcome.resolve
            (some [("0xa", ⟨some "WETH", some ⟨some ⟨3000⟩⟩⟩)]))).state
        60000 ["0xA"] 1 RemoteOutcome.reject).result (lcStr "0xA")
        = some 3000 :=
  (c3_ttl_idempotence "k" "0xA" 1 1 0 60000
    [("0xa", ⟨some "WETH", some ⟨some ⟨3000⟩⟩⟩)] 3000 RemoteOutcome.reject
    (by decide) (by decide)).2.1 (by decide)

/-- C3 counterexample: two `getTokenPrices` calls with the same address
1 ms apart (well within the TTL) both issue a remote pricing call when
the first call's remote request was rejected — the failed lookup is not
cached, so the claim's "at most one remote pricing call within the TTL
window" does not hold as stated. -/
theorem c3_ttl_idempotence_counterexample :
    (getTokenPrices ⟨"k", []⟩ 0 ["0xa"] 1 RemoteOutcome.reject).remoteCalled
      = true
    ∧ (getTokenPrices
        (getTokenPrices ⟨"k", []⟩ 0 ["0xa"] 1 RemoteOutcome.reject).state
        1 ["0xa"] 1 RemoteOutcome.reject).remoteCalled = true := by
  decide

/-- C6 (amended): `getTokenPrices` normalizes the requested addresses
to lowercase before the cache lookup, but does not deduplicate them:
the batch sent in the remote request is exactly the lowercased request
list filtered to cache misses, occurrence for occurrence, so duplicate
or differently-cased spellings of one address each contribute their own
cache lookup and their own occurrence in the batched remote request. -/
theorem c6_normalize_no_dedup (s : PriceServiceState) (now : Int)
    (addresses : List String) (chainId : Int) (remote : RemoteOutcome)
    (hk : ¬ s.apiKey = "") :
    (getTokenPrices s now addresses chainId remote).batch
      = (addresses.map lcStr).filter
          (fun a => (getCachedPrice s now a).isNone) := by
  rw [← cacheSplit_snd s now [] (addresses.map lcStr)]
  by_cases h2 : (cacheSplit s now [] (addresses.map lcStr)).2 = []
  · rw [getTokenPrices_allHit s now addresses chainId remote hk h2]
    exact h2.symm
  · cases remote with
    | reject => rw [getTokenPrices_reject s now addresses chainId hk h2]
    | resolve o =>
      cases o with
      | none => rw [getTokenPrices_resolveNone s now addresses chainId hk h2]
      | some data =>
        rw [getTokenPrices_resolveSome s now addresses chainId data hk h2]

theorem c6_normalize_no_dedup_witness :
    (getTokenPrices ⟨"k", []⟩ 0 ["0xA", "0xB"] 1 RemoteOutcome.reject).batch
      = (["0xA", "0xB"].map lcStr).filter
          (fun a => (getCachedPrice ⟨"k", []⟩ 0 a).isNone)
    ∧ (["0xA", "0xB"].map lcStr).filter
          (fun a => (getCachedPrice ⟨"k", []⟩ 0 a).isNone)
        = ["0xa", "0xb"] :=
  ⟨c6_normalize_no_dedup ⟨"k", []⟩ 0 ["0xA", "0xB"] 1 RemoteOutcome.reject
      (by decide),
    by decide⟩

/-- C6 counterexample: two spellings of the same address, `"0xA"` and
`"0xa"`, are not deduplicated — the batched remote request contains the
lowercased address twice (the claim requires a single occurrence). -/
theorem c6_normalize_no_dedup_counterexample :
    (getTokenPrices ⟨"k", []⟩ 0 ["0xA", "0xa"] 1 RemoteOutcome.reject).batch
      = ["0xa", "0xa"]
    ∧ addressParamOf
        (getTokenPrices ⟨"k", []⟩ 0 ["0xA", "0xa"] 1 RemoteOutcome.reject).batch
      = "0xa,0xa" := by
  decide

theorem foldr_positions_all_fail (fetch : Int → Except String (List V4Position))
    (cs : List Int) (h : ∀ c ∈ cs, ∃ e, fetch c = Except.error e) :
    cs.foldr
      (fun c acc =>
        match fetch c with
        | Except.ok ps => ps ++ acc
        | Except.error _ => acc) []
      = ([] : List V4Position) := by
  induction cs with
  | nil => rfl
  | cons c rest ih =>
    rcases h c (List.mem_cons_self c rest) with ⟨e, he⟩
    simp only [List.foldr_cons, he]
    exact ih (fun c2 hc2 => h c2 (List.mem_cons_of_mem c hc2))

theorem foldr_chainErrors_mem (fetch : Int → Except String (List V4Position))
    (cs : List Int) (c : Int) (e : String)
    (hc : c ∈ cs) (he : fetch c = Except.error e) :
    ChainError.mk c e ∈ cs.foldr
      (fun c2 acc =>
        match fetch c2 with
        | Except.ok _ => acc
        | Except.error e2 => ChainError.mk c2 e2 :: acc) [] := by
  induction cs with
  | nil => cases hc
  | cons c2 rest ih =>
    rcases List.mem_cons.mp hc with h | h
    · subst h
      simp only [List.foldr_cons, he]
      exact List.mem_cons_self _ _
    · cases hf : fetch c2 with
      | ok ps =>
        simp only [List.foldr_cons, hf]
        exact ih h
      | error e2 =>
        simp only [List.foldr_cons, hf]
        exact List.mem_cons_of_mem _ (ih h)

/-- C7: `getPositions` always reports success at the aggregation layer;
when every chain's fetch fails, the result still reports success, an
empty position list, a `chainErrors` entry for each failed chain, and
zero totals. -/
theorem c7_always_success (fetch : Int → Except String (List V4Position))
    (walletAddress : String) (chainId : Option Int) :
    (getPositions fetch walletAddress chainId).success = true
    ∧ ((∀ c ∈ resolveChainSet chainId, ∃ e, fetch c = Except.error e) →
        (getPositions fetch walletAddress chainId).positions = []
        ∧ (getPositions fetch walletAddress chainId).totalValueUsd = 0
        ∧ (getPositions fetch walletAddress chainId).totalFeesUsd = 0
        ∧ (∀ c ∈ resolveChainSet chainId, ∃ e,
            fetch c = Except.error e
            ∧ ChainError.mk c e ∈ (getPositions fetch walletAddress chainId).chainErrors)) := by
  refine ⟨rfl, fun h => ?_⟩
  have hpos : (getPositions fetch walletAddress chainId).positions = [] := by
    show (resolveChainSet chainId).foldr
      (fun c acc =>
        match fetch c with
        | Except.ok ps => ps ++ acc
        | Except.error _ => acc) [] = []
    exact foldr_positions_all_fail fetch (resolveChainSet chainId) h
  refine ⟨hpos, ?_, ?_, ?_⟩
  · show ((getPositions fetch walletAddress chainId).positions).foldl
      (fun t p => t + p.totalValueUsd) 0 = 0
    rw [hpos]
    rfl
  · show ((getPositions fetch walletAddress chainId).positions).foldl
      (fun t p => t + p.feesUsd) 0 = 0
    rw [hpos]
    rfl
  · intro c hc
    rcases h c hc with ⟨e, he⟩
    exact ⟨e, he, foldr_chainErrors_mem fetch (resolveChainSet chainId) c e hc he⟩

theorem c7_always_success_witness :
    (getPositions (fun _ => Except.error "GraphQL query failed")
        "0x0000000000000000000000000000000000000000" (some 99999)).success = true
    ∧ (getPositions (fun _ => Except.error "GraphQL query failed")
        "0x0000000000000000000000000000000000000000" (some 99999)).positions = []
    ∧ (getPositions (fun _ => Except.error "GraphQL query failed")
        "0x0000000000000000000000000000000000000000" (some 99999)).totalValueUsd
        = 0 := by
  have h := c7_always_success (fun _ => Except.error "GraphQL query failed")
    "0x0000000000000000000000000000000000000000" (some 99999)
  have h2 := h.2 (fun c _ => ⟨"GraphQL query failed", rfl⟩)
  exact ⟨h.1, h2.1, h2.2.1⟩

/-- C8 (amended): the positions route rejects with a 400 error
envelope, without invoking the core, every request whose wallet address
is not `0x` followed by exactly 40 hex characters; for a non-empty
chainId parameter it rejects exactly those requests whose
`parseInt(·, 10)` value is not a member of {1, 56, 8453, 42161, 1301}
(so a parameter such as "1.5" is accepted and reaches the core as 1);
an absent or empty chainId parameter skips the chain check; requests
passing the checks reach `getPositions` with the parsed chain id. -/
theorem c8_route_validation (walletAddress : String) (q : String) :
    (¬ validWalletAddress walletAddress = true →
       ∀ p : Option String, v4PositionsRoute walletAddress p
         = RouteOutcome.badRequest "Invalid wallet address format")
    ∧ (validWalletAddress walletAddress = true →
        v4PositionsRoute walletAddress none
          = RouteOutcome.callCore walletAddress none
        ∧ v4PositionsRoute walletAddress (some "")
          = RouteOutcome.callCore walletAddress none
        ∧ (¬ q = "" →
            (jsParseInt q = none →
               v4PositionsRoute walletAddress (some q)
                 = RouteOutcome.badRequest
                     "Invalid chainId. Supported: 1, 56, 8453, 42161, 1301")
            ∧ (∀ n, jsParseInt q = some n → n ∉ supportedChainIds →
               v4PositionsRoute walletAddress (some q)
                 = RouteOutcome.badRequest
                     "Invalid chainId. Supported: 1, 56, 8453, 42161, 1301")
            ∧ (∀ n, jsParseInt q = some n → n ∈ supportedChainIds →
               v4PositionsRoute walletAddress (some q)
                 = RouteOutcome.callCore walletAddress (some n)))) := by
  constructor
  · intro hv p
    cases p with
    | none => simp [v4PositionsRoute, hv]
    | some q2 => simp [v4PositionsRoute, hv]
  · intro hv
    refine ⟨by simp [v4PositionsRoute, hv], by simp [v4PositionsRoute, hv], ?_⟩
    intro hq
    refine ⟨?_, ?_, ?_⟩
    · intro hp
      simp [v4PositionsRoute, hv, hq, hp]
    · intro n hp hn
      simp [v4PositionsRoute, hv, hq, hp, hn]
    · intro n hp hn
      simp [v4PositionsRoute, hv, hq, hp, hn]

theorem c8_route_validation_witness :
    v4PositionsRoute "0xaaaaaaaaaaaaaaaaaaaaaaaaaaaaaaaaaaaaaaaa" (some "56")
      = RouteOutcome.callCore "0xaaaaaaaaaaaaaaaaaaaaaaaaaaaaaaaaaaaaaaaa"
          (some 56)
    ∧ v4PositionsRoute "0xZZ" (some "1")
      = RouteOutcome.badRequest "Invalid wallet address format" :=
  ⟨(((c8_route_validation "0xaaaaaaaaaaaaaaaaaaaaaaaaaaaaaaaaaaaaaaaa"
        "56").2 (by decide)).2.2 (by decide)).2.2 56 (by decide) (by decide),
    (c8_route_validation "0xZZ" "1").1 (by decide) (some "1")⟩

/-- C8 counterexample: the chainId parameter "1.5" is not a member of
{1, 56, 8453, 42161, 1301}, yet the request is not rejected:
`parseInt("1.5", 10)` evaluates to 1 and the core is invoked with
chain id 1. -/
theorem c8_route_validation_counterexample :
    v4PositionsRoute "0xaaaaaaaaaaaaaaaaaaaaaaaaaaaaaaaaaaaaaaaa" (some "1.5")
      = RouteOutcome.callCore "0xaaaaaaaaaaaaaaaaaaaaaaaaaaaaaaaaaaaaaaaa"
          (some 1) := by
  decide
